import Mathlib

/-!
Verification of the concurrent-command worker pool of `ftpsyncworker.py`
(SublimeText2-FTPSync).  The file embeds the two classes of the source —
`RunningCommand` (the per-command executor thread) and `Worker` (the pool) —
as pure Lean functions over an explicit `Worker` state, and proves the
specification's claims about them.

Modelling conventions:
  * Commands, configs and connections are opaque objects compared by
    identity in Python; they are modelled as natural-number identifiers.
  * `makeConnection(makeConfig(config), None, False)` is an external
    capability; it is modelled as an oracle `factory : Nat → FactoryResult`
    indexed by the number of factory calls made so far (`k`), so that each
    call can independently return a batch or raise.
  * `time.sleep` only delays; delays are irrelevant to the state, so sleeps
    are not represented (the back-off branch of `fillConnection` is the
    branch that returns normally after the "too many connections" error).
  * Raised exceptions are explicit outcomes carrying the message `str(e)`.
  * The busy-wait loop of `Worker.__run` and the polling loop of
    `RunningCommand.run` take fuel; exhausting it models the loop spinning
    forever, reported as a `stuck` outcome (never silently skipped).
  * `threading.BoundedSemaphore(limit)` is modelled by the count `sem` of
    available permits; `acquire` with `sem = 0` blocks, which in a
    sequential execution of one call chain means the chain is `stuck`.
  * The unused attributes of the Python class (`self.threads`, `self.index`)
    are omitted: nothing ever reads them.
-/

namespace FTPSync

/-- Command identity (Python compares commands with `is`). -/
abbrev Cmd := Nat

/-- A raw config object handed to `addCommand`. -/
abbrev Config := Nat

/-- One connection object inside a batch. -/
abbrev Conn := Nat

/-- What the connection factory returns: a batch (Python list) of
connections.  `Worker.connections` is a list of such batches. -/
abbrev Batch := List Conn

/-- One call of `self.makeConnection(self.makeConfig(config), None, False)`:
either a returned batch, or a raised exception with message `str(e)`. -/
inductive FactoryResult where
  | ok (batch : Batch)
  | err (msg : String)
deriving DecidableEq, Repr

/-- The dict appended to `self.commands` in `Worker.__run`:
`{'command': …, 'config': …, 'index': …, 'threadId': …}`.  The `'thread'`
entry (the thread object itself) carries no further state and is omitted.
`config` is an `Option` because `__onFinish` passes `None` when the finished
command had no pending record. -/
structure PendRec where
  command : Cmd
  config : Option Config
  index : Nat
  threadId : Nat
deriving DecidableEq, Repr

/-- The mutable state of a `Worker` object.  `sem` is the number of
available permits of `self.semaphore = threading.BoundedSemaphore(limit)`. -/
structure Worker where
  limit : Nat
  connections : List Batch
  commands : List PendRec
  waitingCommands : List Cmd
  threadId : Nat
  sem : Nat
  freeConnections : List Nat
deriving DecidableEq, Repr

/-- `Worker.__init__(limit, factory, loader)`: empty pool, counting gate
initialised to `limit`. -/
def mkWorker (limit : Nat) : Worker :=
  ⟨limit, [], [], [], 0, limit, []⟩

/-- `str.lower()` restricted to the ASCII case mapping, which is all the
matched pattern `'too many connections'` needs. -/
def strLower (s : String) : String :=
  String.mk (s.data.map Char.toLower)

/-- `str(e).lower().find('too many connections') != -1`: the lowercased
message contains the pattern as a contiguous substring. -/
def isTooManyConnections (msg : String) : Bool :=
  decide (("too many connections".data) <:+: (strLower msg).data)

/-- Result of one `Worker.fillConnection` call: the new state, the number of
factory calls made so far, and whether the back-off branch ran
(`sleep(1.5)`) — or a raised exception (the bare `raise` of the `else`
branch; `fillConnection` mutates nothing before raising, but the factory
call that raised still consumed one oracle index). -/
inductive FillResult where
  | ok (w : Worker) (k : Nat) (backoff : Bool)
  | raised (msg : String) (k : Nat)
deriving DecidableEq, Repr

/-- `Worker.fillConnection(config)`.  Guarded by
`len(self.connections) <= self.limit`; calls the factory (consuming oracle
index `k`); on a "too many connections" error sleeps and falls through with
`connection = None`; on any other error re-raises; a non-`None`, non-empty
batch is appended by `addConnection` and the new 1-based batch count
`len(self.connections)` is appended to `freeConnections`. -/
def fillConnection (factory : Nat → FactoryResult) (w : Worker) (k : Nat) :
    FillResult :=
  if w.connections.length ≤ w.limit then
    match factory k with
    | .ok batch =>
      if 0 < batch.length then
        .ok { w with
              connections := w.connections ++ [batch],
              freeConnections :=
                w.freeConnections ++ [w.connections.length + 1] }
          (k + 1) false
      else
        .ok w (k + 1) false
    | .err msg =>
      if isTooManyConnections msg then
        .ok w (k + 1) true
      else
        .raised msg (k + 1)
  else
    .ok w k false

/-- Result of the connection-waiting phase of `Worker.__run`: the state and
oracle index when a free connection is available, the state at a raise, or
`spins` when the busy-wait loop exceeds its fuel. -/
inductive WaitOut where
  | ok (w : Worker) (k : Nat)
  | raised (msg : String) (w : Worker) (k : Nat)
  | spins
deriving DecidableEq, Repr

/-- The loop `while len(self.freeConnections) == 0: sleep(0.1);
self.fillConnection(config)` of `Worker.__run`, with `fuel` bounding the
number of iterations modelled. -/
def whileNoFree (factory : Nat → FactoryResult) :
    Nat → Worker → Nat → WaitOut
  | 0, w, k => if w.freeConnections.length = 0 then .spins else .ok w k
  | fuel + 1, w, k =>
    if w.freeConnections.length = 0 then
      match fillConnection factory w k with
      | .ok w' k' _ => whileNoFree factory fuel w' k'
      | .raised msg k' => .raised msg w k'
    else
      .ok w k

/-- The connection-provisioning phase of `Worker.__run`: the unconditional
first `self.fillConnection(config)`, then `whileNoFree`. -/
def fillWaitLoop (factory : Nat → FactoryResult) (fuel : Nat)
    (w : Worker) (k : Nat) : WaitOut :=
  match fillConnection factory w k with
  | .ok w' k' _ => whileNoFree factory fuel w' k'
  | .raised msg k' => .raised msg w k'

/-- The scan of `Worker.__onFinish`:

    for cmd in self.commands:
        if cmd['command'] is command:
            self.freeConnections.append(cmd['index'])
            config = cmd['config']
            self.commands.remove(cmd)

Returns (the remaining records, the indices appended to `freeConnections`
in order, the final value of the local `config`, which starts as `None`
and is overwritten by each match, so the last match's config stands).
Python's list iterator advances by position while `remove` shifts the tail
left, so the element directly after a removed record is kept but never
examined: the Boolean argument is that iterator state — `true` right after
a removal (keep the head unexamined), `false` otherwise.  (`list.remove`
removes the first element equal to the record; records are distinguished
by their fresh `threadId`, so the removed element is the examined one.) -/
def scanRemoveAux (c : Cmd) : Bool → List PendRec →
    List PendRec × List Nat × Option Config
  | _, [] => ([], [], none)
  | true, r :: rest =>
    let res := scanRemoveAux c false rest
    (r :: res.1, res.2.1, res.2.2)
  | false, r :: rest =>
    if r.command = c then
      let res := scanRemoveAux c true rest
      (res.1, r.index :: res.2.1,
        if res.2.1.isEmpty then r.config else res.2.2)
    else
      let res := scanRemoveAux c false rest
      (r :: res.1, res.2.1, res.2.2)

/-- The scan with the iterator starting at the first record and nothing
removed yet. -/
def scanRemove (c : Cmd) (l : List PendRec) :
    List PendRec × List Nat × Option Config :=
  scanRemoveAux c false l

/-- Observable events of a `Worker` call chain, for stating which externals
were invoked and with what. -/
inductive PoolEvent where
  | queued (c : Cmd)
  | setConn (c : Cmd) (batch : Batch) (index : Nat)
  | started (c : Cmd) (tid : Nat)
  | finishCalled (c : Cmd)
deriving DecidableEq, Repr

/-- Outcome of one `Worker` entry point run to completion: normal return,
a propagated exception, or `stuck` (blocked on the semaphore, or the
busy-wait loop out of fuel).  `k` is the factory-oracle index after the
call; `tr` the events in order. -/
inductive Outcome where
  | ok (w : Worker) (k : Nat) (tr : List PoolEvent)
  | raised (msg : String) (w : Worker) (k : Nat) (tr : List PoolEvent)
  | stuck
deriving DecidableEq, Repr

/-- The worker state an outcome leaves behind (none when stuck). -/
def Outcome.worker? : Outcome → Option Worker
  | .ok w _ _ => some w
  | .raised _ w _ _ => some w
  | .stuck => none

/-- Prefix `__onFinish`'s own entry event onto the outcome of the command it
may wake up. -/
def prependFinish (c : Cmd) : Outcome → Outcome
  | .ok w k tr => .ok w k (.finishCalled c :: tr)
  | .raised msg w k tr => .raised msg w k (.finishCalled c :: tr)
  | .stuck => .stuck

/-- The `except`/`finally` tail of `Worker.__run` after an exception `msg`:
`finally` releases the semaphore, then the bare `raise` re-raises `msg` —
unless `__onFinish` itself raised, in which case that exception is the one
that propagates (the bare `raise` is never reached). -/
def raiseAfter (msg : String) : Outcome → Outcome
  | .ok w k tr => .raised msg { w with sem := w.sem + 1 } k tr
  | .raised msg2 w k tr => .raised msg2 { w with sem := w.sem + 1 } k tr
  | .stuck => .stuck

/-- The two mutually recursive internal entry points of `Worker`:
`__run(command, config)` and `__onFinish(command)`. -/
inductive Call where
  | run (c : Cmd) (cfg : Option Config)
  | finish (c : Cmd)
deriving DecidableEq, Repr

/-- Rank used by the termination measure of `exec`: `__run` may call
`__onFinish` without shrinking the wait queue (its error path), while
`__onFinish` calls `__run` only after popping one waiting command. -/
def Call.rank : Call → Nat
  | .run _ _ => 1
  | .finish _ => 0

/-- A `fillConnection` call that returns leaves `waitingCommands` as it
found it (only `connections` and `freeConnections` are ever assigned). -/
theorem fillConnection_ok_waiting (factory : Nat → FactoryResult)
    (w : Worker) (k : Nat) {w' : Worker} {k' : Nat} {b : Bool}
    (h : fillConnection factory w k = .ok w' k' b) :
    w'.waitingCommands = w.waitingCommands := by
  unfold fillConnection at h
  split at h
  · split at h
    · split at h <;> (cases h; rfl)
    · split at h
      · cases h; rfl
      · cases h
  · cases h; rfl

/-- The busy-wait loop raises only from a state whose `waitingCommands` is
the entry state's (every completed iteration preserves it). -/
theorem whileNoFree_raised_waiting (factory : Nat → FactoryResult) :
    ∀ fuel w k {msg : String} {w' : Worker} {k' : Nat},
      whileNoFree factory fuel w k = .raised msg w' k' →
      w'.waitingCommands = w.waitingCommands := by
  intro fuel
  induction fuel with
  | zero =>
    intro w k msg w' k' h
    unfold whileNoFree at h
    split at h <;> cases h
  | succ n ih =>
    intro w k msg w' k' h
    unfold whileNoFree at h
    split at h
    · split at h
      · rename_i w2 k2 b hfill
        exact (ih _ _ h).trans (fillConnection_ok_waiting _ _ _ hfill)
      · cases h; rfl
    · cases h

/-- The whole provisioning phase of `__run` preserves `waitingCommands` up
to the point where it raises. -/
theorem fillWaitLoop_raised_waiting (factory : Nat → FactoryResult)
    (fuel : Nat) (w : Worker) (k : Nat) {msg : String} {w' : Worker}
    {k' : Nat} (h : fillWaitLoop factory fuel w k = .raised msg w' k') :
    w'.waitingCommands = w.waitingCommands := by
  unfold fillWaitLoop at h
  split at h
  · rename_i w2 k2 b hfill
    exact (whileNoFree_raised_waiting factory fuel w2 k2 h).trans
      (fillConnection_ok_waiting _ _ _ hfill)
  · cases h; rfl

/-- `Worker.__run` and `Worker.__onFinish`, run to completion as one pure
function on the pool state.

`.run c cfg` is `__run(command, config)`:
  1. `self.semaphore.acquire()` — blocks (`stuck`) when no permit is free;
  2. `self.threadId += 1`;
  3. `self.fillConnection(config)` then
     `while len(self.freeConnections) == 0: sleep(0.1); self.fillConnection(config)`
     (`fillWaitLoop`);
  4. `index = self.freeConnections.pop()` (the last element);
     `command.setConnection(self.connections[index - 1])`;
     `self.commands.append({...})`; `thread.start()`;
  5. `finally: self.semaphore.release()` — and on an exception the
     `except` clause first runs `self.__onFinish(command)`, then the bare
     `raise` re-raises (`raiseAfter`).

`.finish c` is `__onFinish(command)`: the scan/remove/free loop
(`scanRemove`), then if `waitingCommands` is non-empty it pops the last
queued command and dispatches it through `__run` with the captured config. -/
def exec (factory : Nat → FactoryResult) (fuel : Nat) :
    Call → Worker → Nat → Outcome
  | .run c cfg, w, k =>
    if w.sem = 0 then .stuck
    else
      match hwait : fillWaitLoop factory fuel
          { w with sem := w.sem - 1, threadId := w.threadId + 1 } k with
      | .spins => .stuck
      | .raised msg w2 k2 =>
        raiseAfter msg (exec factory fuel (.finish c) w2 k2)
      | .ok w2 k2 =>
        match w2.freeConnections.getLast? with
        | none => .stuck
        | some index =>
          let w3 := { w2 with
                      freeConnections := w2.freeConnections.dropLast }
          let w4 := { w3 with
                      commands :=
                        w3.commands ++ [PendRec.mk c cfg index w3.threadId] }
          .ok { w4 with sem := w4.sem + 1 } k2
            [.setConn c (w3.connections.getD (index - 1) []) index,
             .started c w3.threadId]
  | .finish c, w, k =>
    let res := scanRemove c w.commands
    let w1 := { w with
                commands := res.1,
                freeConnections := w.freeConnections ++ res.2.1 }
    match hlast : w1.waitingCommands.getLast? with
    | none => .ok w1 k [.finishCalled c]
    | some awakened =>
      prependFinish c (exec factory fuel (.run awakened res.2.2)
        { w1 with waitingCommands := w1.waitingCommands.dropLast } k)
termination_by call w k => (w.waitingCommands.length, call.rank)
decreasing_by
  · have hpres : w2.waitingCommands = w.waitingCommands :=
      fillWaitLoop_raised_waiting factory fuel
        { w with sem := w.sem - 1, threadId := w.threadId + 1 } k hwait
    rw [hpres]
    exact Prod.Lex.right _ (by simp [Call.rank])
  · have hne : w.waitingCommands ≠ [] := by
      intro hnil
      simp [hnil] at hlast
    refine Prod.Lex.left _ _ ?_
    simpa using Nat.sub_lt (List.length_pos.mpr hne) Nat.one_pos

/-- `Worker.addCommand(command, config)`: queue the command when
`len(self.commands) >= self.limit`, otherwise dispatch it through
`self.__run(command, config)`. -/
def addCommand (factory : Nat → FactoryResult) (fuel : Nat)
    (w : Worker) (c : Cmd) (cfg : Config) (k : Nat) : Outcome :=
  if w.limit ≤ w.commands.length then
    .ok { w with waitingCommands := w.waitingCommands ++ [c] } k [.queued c]
  else
    exec factory fuel (.run c (some cfg)) w k

/-- `Worker.isEmpty()`:
`len(self.commands) == 0 and len(self.waitingCommands) == 0`. -/
def isEmpty (w : Worker) : Bool :=
  (w.commands.length == 0) && (w.waitingCommands.length == 0)

/-- One externally triggered event on the pool: an `addCommand` call, or a
finish callback fired by an executor thread for its command. -/
inductive PoolStep where
  | add (c : Cmd) (cfg : Config)
  | finish (c : Cmd)
deriving DecidableEq, Repr

/-- Apply one external event to the pool. -/
def stepPool (factory : Nat → FactoryResult) (fuel : Nat)
    (w : Worker) (s : PoolStep) (k : Nat) : Outcome :=
  match s with
  | .add c cfg => addCommand factory fuel w c cfg k
  | .finish c => exec factory fuel (.finish c) w k

/-- Apply a sequence of external events to the pool, threading the state a
normal or exceptional return leaves behind into the next event (`none`
when a step blocks). -/
def runSteps (factory : Nat → FactoryResult) (fuel : Nat) :
    Worker → List PoolStep → Nat → Option (Worker × Nat)
  | w, [], k => some (w, k)
  | w, s :: rest, k =>
    match stepPool factory fuel w s k with
    | .ok w' k' _ => runSteps factory fuel w' rest k'
    | .raised _ w' k' _ => runSteps factory fuel w' rest k'
    | .stuck => none

/-- Observable events of one `RunningCommand.run()` execution. -/
inductive RCEvent where
  | execCall (ok : Bool)
  | poll (running : Bool)
  | finishCall
deriving DecidableEq, Repr

/-- The finalization loop of `RunningCommand.run`:
`while self.command.isRunning(): sleep(0.5)`.  `isRunning i` is what the
i-th poll returns; `fuel` bounds the modelled iterations (`none` = the
loop never observes `False`).  Each check is one `poll` event; the check
that returns `False` ends the loop. -/
def pollPhase (isRunning : Nat → Bool) : Nat → Nat → Option (List RCEvent)
  | _, 0 => none
  | i, fuel + 1 =>
    if isRunning i then
      (pollPhase isRunning (i + 1) fuel).map (fun tr => .poll true :: tr)
    else
      some [.poll false]

/-- Result of one `RunningCommand.run()`: its event trace and whether an
exception propagates out of `run` (both `execute()` calls failed — the
`finally` block still ran to completion first). -/
structure RCResult where
  trace : List RCEvent
  raised : Bool
deriving DecidableEq, Repr

/-- `RunningCommand.run()`.  `exec1` is whether the first
`self.command.execute()` returns normally; `exec2` whether the retry in the
`except` clause does (consulted only when the first call raised).  The
`finally` block polls `isRunning` until it returns false, then calls
`self.onFinish(self.command)`; if the retry raised, that exception
propagates after the `finally` block completes. -/
def rcRun (exec1 exec2 : Bool) (isRunning : Nat → Bool) (fuel : Nat) :
    Option RCResult :=
  let tryPhase : List RCEvent × Bool :=
    if exec1 then ([.execCall true], false)
    else if exec2 then ([.execCall false, .execCall true], false)
    else ([.execCall false, .execCall false], true)
  match pollPhase isRunning 0 fuel with
  | none => none
  | some polls => some ⟨tryPhase.1 ++ polls ++ [.finishCall], tryPhase.2⟩

/-! ### Helper lemmas about the embedded operations -/

/-- The event trace an outcome carries (none when stuck). -/
def Outcome.trace? : Outcome → Option (List PoolEvent)
  | .ok _ _ tr => some tr
  | .raised _ _ _ tr => some tr
  | .stuck => none

/-- The worker state a `WaitOut` carries (none when spinning forever). -/
def WaitOut.worker? : WaitOut → Option Worker
  | .ok w _ => some w
  | .raised _ w _ => some w
  | .spins => none

/-- The fields of the pool state that connection provisioning never
assigns: everything except `connections` and `freeConnections`. -/
def SameCore (w w' : Worker) : Prop :=
  w'.limit = w.limit ∧ w'.commands = w.commands ∧
  w'.waitingCommands = w.waitingCommands ∧ w'.sem = w.sem ∧
  w'.threadId = w.threadId

theorem sameCore_refl (w : Worker) : SameCore w w :=
  ⟨rfl, rfl, rfl, rfl, rfl⟩

theorem sameCore_trans {w w' w'' : Worker}
    (h1 : SameCore w w') (h2 : SameCore w' w'') : SameCore w w'' :=
  ⟨h2.1.trans h1.1, h2.2.1.trans h1.2.1, h2.2.2.1.trans h1.2.2.1,
   h2.2.2.2.1.trans h1.2.2.2.1, h2.2.2.2.2.trans h1.2.2.2.2⟩

theorem fillConnection_sameCore (factory : Nat → FactoryResult)
    (w : Worker) (k : Nat) {w' : Worker} {k' : Nat} {b : Bool}
    (h : fillConnection factory w k = .ok w' k' b) : SameCore w w' := by
  unfold fillConnection at h
  split at h
  · split at h
    · split at h <;> (cases h; exact sameCore_refl _)
    · split at h
      · cases h; exact sameCore_refl _
      · cases h
  · cases h; exact sameCore_refl _

theorem whileNoFree_sameCore (factory : Nat → FactoryResult) :
    ∀ fuel w k {w' : Worker},
      (whileNoFree factory fuel w k).worker? = some w' → SameCore w w' := by
  intro fuel
  induction fuel with
  | zero =>
    intro w k w' h
    unfold whileNoFree at h
    split at h
    · cases h
    · cases h; exact sameCore_refl _
  | succ n ih =>
    intro w k w' h
    unfold whileNoFree at h
    split at h
    · split at h
      · rename_i w2 k2 b hfill
        exact sameCore_trans (fillConnection_sameCore _ _ _ hfill) (ih _ _ h)
      · cases h; exact sameCore_refl _
    · cases h; exact sameCore_refl _

theorem fillWaitLoop_sameCore (factory : Nat → FactoryResult)
    (fuel : Nat) (w : Worker) (k : Nat) {w' : Worker}
    (h : (fillWaitLoop factory fuel w k).worker? = some w') :
    SameCore w w' := by
  unfold fillWaitLoop at h
  split at h
  · rename_i w2 k2 b hfill
    exact sameCore_trans (fillConnection_sameCore _ _ _ hfill)
      (whileNoFree_sameCore factory fuel w2 k2 h)
  · cases h; exact sameCore_refl _

/-- The remaining pending records after the `__onFinish` scan are never
more numerous than the scanned list. -/
theorem scanRemoveAux_length_le (c : Cmd) :
    ∀ (l : List PendRec) (skip : Bool),
      (scanRemoveAux c skip l).1.length ≤ l.length := by
  intro l
  induction l with
  | nil => intro skip; cases skip <;> simp [scanRemoveAux]
  | cons r rest ih =>
    intro skip
    cases skip with
    | true => simpa [scanRemoveAux] using ih false
    | false =>
      by_cases hr : r.command = c
      · simp only [scanRemoveAux, hr, if_pos, List.length_cons]
        exact Nat.le_succ_of_le (ih true)
      · simp only [scanRemoveAux, hr, if_neg, not_false_iff, List.length_cons]
        simpa using ih false

theorem scanRemove_length_le (c : Cmd) (l : List PendRec) :
    (scanRemove c l).1.length ≤ l.length :=
  scanRemoveAux_length_le c l false

/-- When some pending record matches the finished command, the scan removes
at least one record (the first match is always examined and removed). -/
theorem scanRemove_length_lt (c : Cmd) :
    ∀ l : List PendRec, (∃ r ∈ l, r.command = c) →
      (scanRemove c l).1.length < l.length := by
  intro l
  induction l with
  | nil => rintro ⟨r, hr, _⟩; cases hr
  | cons r rest ih =>
    rintro ⟨r2, hr2, hc2⟩
    by_cases hr : r.command = c
    · simp only [scanRemove, scanRemoveAux, hr, if_pos, List.length_cons]
      exact Nat.lt_succ_of_le (scanRemoveAux_length_le c rest true)
    · have hmem : r2 ∈ rest := by
        rcases List.mem_cons.mp hr2 with rfl | h
        · exact absurd hc2 hr
        · exact h
      simp only [scanRemove, scanRemoveAux, hr, if_neg, not_false_iff,
        List.length_cons]
      simpa using Nat.succ_lt_succ (ih ⟨r2, hmem, hc2⟩)

/-- A scan over records none of which matches removes nothing, frees
nothing and captures no config, from either iterator state. -/
theorem scanRemoveAux_nomatch (c : Cmd) :
    ∀ l : List PendRec, (∀ r ∈ l, r.command ≠ c) → ∀ skip,
      scanRemoveAux c skip l = (l, [], none) := by
  intro l
  induction l with
  | nil => intro _ skip; cases skip <;> rfl
  | cons r rest ih =>
    intro hno skip
    have hr : ¬ r.command = c := hno r (List.mem_cons_self r rest)
    have hrest := ih (fun x hx => hno x (List.mem_cons_of_mem r hx))
    cases skip with
    | true => simp [scanRemoveAux, hrest false]
    | false => simp [scanRemoveAux, hr, hrest false]

theorem scanRemove_nomatch (c : Cmd) (l : List PendRec)
    (h : ∀ r ∈ l, r.command ≠ c) : scanRemove c l = (l, [], none) :=
  scanRemoveAux_nomatch c l h false

/-! ### Unfolding equations for `exec` (one per control path of `__run`
and `__onFinish`) -/

/-- `__run` blocks on `semaphore.acquire()` when no permit is free. -/
theorem exec_run_sem0 (factory : Nat → FactoryResult) (fuel : Nat)
    (c : Cmd) (cfg : Option Config) (w : Worker) (k : Nat)
    (h0 : w.sem = 0) : exec factory fuel (.run c cfg) w k = .stuck := by
  rw [exec]
  simp [h0]

/-- `__run` blocks in the busy-wait loop when no free connection ever
appears. -/
theorem exec_run_spins (factory : Nat → FactoryResult) (fuel : Nat)
    (c : Cmd) (cfg : Option Config) (w : Worker) (k : Nat)
    (h0 : ¬ w.sem = 0)
    (hwait : fillWaitLoop factory fuel
      { w with sem := w.sem - 1, threadId := w.threadId + 1 } k = .spins) :
    exec factory fuel (.run c cfg) w k = .stuck := by
  rw [exec, if_neg h0]
  split
  · rfl
  · rename_i msg w2 k2 h; rw [hwait] at h; cases h
  · rename_i w2 k2 h; rw [hwait] at h; cases h

/-- The error path of `__run`: an exception in the provisioning phase runs
`__onFinish(command)`, releases the gate and re-raises. -/
theorem exec_run_raised_eq (factory : Nat → FactoryResult) (fuel : Nat)
    (c : Cmd) (cfg : Option Config) (w : Worker) (k : Nat)
    (msg : String) (w2 : Worker) (k2 : Nat)
    (h0 : ¬ w.sem = 0)
    (hwait : fillWaitLoop factory fuel
      { w with sem := w.sem - 1, threadId := w.threadId + 1 } k =
      .raised msg w2 k2) :
    exec factory fuel (.run c cfg) w k =
      raiseAfter msg (exec factory fuel (.finish c) w2 k2) := by
  rw [exec, if_neg h0]
  split
  · rename_i h; rw [hwait] at h; cases h
  · rename_i msg' w2' k2' h; rw [hwait] at h; cases h; rfl
  · rename_i w2' k2' h; rw [hwait] at h; cases h

/-- The success path of `__run`: pop the last free index, bind the batch at
that index, record the pending execution, start the executor, release the
gate. -/
theorem exec_run_ok_eq (factory : Nat → FactoryResult) (fuel : Nat)
    (c : Cmd) (cfg : Option Config) (w : Worker) (k : Nat)
    (w2 : Worker) (k2 : Nat) (index : Nat)
    (h0 : ¬ w.sem = 0)
    (hwait : fillWaitLoop factory fuel
      { w with sem := w.sem - 1, threadId := w.threadId + 1 } k = .ok w2 k2)
    (hidx : w2.freeConnections.getLast? = some index) :
    exec factory fuel (.run c cfg) w k =
      .ok { w2 with
            commands := w2.commands ++ [PendRec.mk c cfg index w2.threadId],
            sem := w2.sem + 1,
            freeConnections := w2.freeConnections.dropLast } k2
        [.setConn c (w2.connections.getD (index - 1) []) index,
         .started c w2.threadId] := by
  rw [exec, if_neg h0]
  split
  · rename_i h; rw [hwait] at h; cases h
  · rename_i msg' w2' k2' h; rw [hwait] at h; cases h
  · rename_i w2' k2' h
    rw [hwait] at h; cases h
    split
    · rename_i h2; rw [hidx] at h2; cases h2
    · rename_i index' h2; rw [hidx] at h2; cases h2; rfl

/-- Degenerate branch of `__run` (unreachable from the loop's contract):
an empty free list after the wait loop would make `pop()` fail; the model
reports it as stuck. -/
theorem exec_run_ok_none (factory : Nat → FactoryResult) (fuel : Nat)
    (c : Cmd) (cfg : Option Config) (w : Worker) (k : Nat)
    (w2 : Worker) (k2 : Nat)
    (h0 : ¬ w.sem = 0)
    (hwait : fillWaitLoop factory fuel
      { w with sem := w.sem - 1, threadId := w.threadId + 1 } k = .ok w2 k2)
    (hidx : w2.freeConnections.getLast? = none) :
    exec factory fuel (.run c cfg) w k = .stuck := by
  rw [exec, if_neg h0]
  split
  · rfl
  · rename_i msg' w2' k2' h; rw [hwait] at h; cases h
  · rename_i w2' k2' h
    rw [hwait] at h; cases h
    split
    · rfl
    · rename_i index' h2; rw [hidx] at h2; cases h2

/-- `__onFinish` with an empty wait queue: scan, free, return. -/
theorem exec_finish_eq_none (factory : Nat → FactoryResult) (fuel : Nat)
    (c : Cmd) (w : Worker) (k : Nat)
    (hnil : w.waitingCommands = []) :
    exec factory fuel (.finish c) w k =
      .ok { w with
            commands := (scanRemove c w.commands).1,
            freeConnections :=
              w.freeConnections ++ (scanRemove c w.commands).2.1 } k
        [.finishCalled c] := by
  rw [exec]
  split
  · simp [hnil]
  · rename_i awakened hlast
    rw [show ({ w with
          commands := (scanRemove c w.commands).1,
          freeConnections := w.freeConnections ++ (scanRemove c w.commands).2.1 } :
        Worker).waitingCommands = w.waitingCommands from rfl, hnil] at hlast
    cases hlast

/-- `__onFinish` with a non-empty wait queue: scan, free, pop the most
recently queued command and dispatch it through `__run` with the captured
config. -/
theorem exec_finish_eq_some (factory : Nat → FactoryResult) (fuel : Nat)
    (c : Cmd) (w : Worker) (k : Nat) (awakened : Cmd)
    (hlast : w.waitingCommands.getLast? = some awakened) :
    exec factory fuel (.finish c) w k =
      prependFinish c (exec factory fuel
        (.run awakened (scanRemove c w.commands).2.2)
        { w with
          commands := (scanRemove c w.commands).1,
          freeConnections :=
            w.freeConnections ++ (scanRemove c w.commands).2.1,
          waitingCommands := w.waitingCommands.dropLast } k) := by
  conv_lhs => rw [exec]
  split
  · rename_i h
    rw [show ({ w with
          commands := (scanRemove c w.commands).1,
          freeConnections := w.freeConnections ++ (scanRemove c w.commands).2.1 } :
        Worker).waitingCommands = w.waitingCommands from rfl, hlast] at h
    cases h
  · rename_i awakened' h
    rw [show ({ w with
          commands := (scanRemove c w.commands).1,
          freeConnections := w.freeConnections ++ (scanRemove c w.commands).2.1 } :
        Worker).waitingCommands = w.waitingCommands from rfl, hlast] at h
    cases h
    rfl

/-- A scan over records exactly one of which matches removes exactly that
record, frees exactly its index and captures exactly its config. -/
theorem scanRemove_unique (c : Cmd) (l1 l2 : List PendRec) (r : PendRec)
    (hr : r.command = c) (h1 : ∀ x ∈ l1, x.command ≠ c)
    (h2 : ∀ x ∈ l2, x.command ≠ c) :
    scanRemove c (l1 ++ r :: l2) = (l1 ++ l2, [r.index], r.config) := by
  induction l1 with
  | nil =>
    cases l2 with
    | nil => simp [scanRemove, scanRemoveAux, hr]
    | cons s rest2 =>
      have hrest := scanRemoveAux_nomatch c rest2
        (fun x hx => h2 x (List.mem_cons_of_mem s hx)) false
      simp [scanRemove, scanRemoveAux, hr, hrest]
  | cons x l1' ih =>
    have hx : ¬ x.command = c := h1 x (List.mem_cons_self x l1')
    have hres := ih (fun y hy => h1 y (List.mem_cons_of_mem x hy))
    simp only [scanRemove] at hres
    simp [scanRemove, scanRemoveAux, hx, hres]

/-! ### The joint postcondition of `__run` and `__onFinish` -/

/-- Postcondition of `__run(c, cfg)` from state `w`: any state it leaves
behind (normal or raised) keeps `limit`, balances the semaphore, and holds
at most one new pending record; and a raised outcome ran
`__onFinish(c)` first. -/
def RunP (factory : Nat → FactoryResult) (fuel : Nat)
    (w : Worker) (c : Cmd) (cfg : Option Config) (k : Nat) : Prop :=
  (∀ w', (exec factory fuel (.run c cfg) w k).worker? = some w' →
    w'.limit = w.limit ∧ w'.sem = w.sem ∧
    w'.commands.length ≤ w.commands.length + 1) ∧
  (∀ msg w' k' tr, exec factory fuel (.run c cfg) w k = .raised msg w' k' tr →
    tr.head? = some (.finishCalled c))

/-- Postcondition of `__onFinish(c)` from state `w`: any state it leaves
behind keeps `limit`, balances the semaphore, and holds at most one record
beyond what the scan left; its trace starts with the finish event. -/
def FinP (factory : Nat → FactoryResult) (fuel : Nat)
    (w : Worker) (c : Cmd) (k : Nat) : Prop :=
  (∀ w', (exec factory fuel (.finish c) w k).worker? = some w' →
    w'.limit = w.limit ∧ w'.sem = w.sem ∧
    w'.commands.length ≤ (scanRemove c w.commands).1.length + 1) ∧
  (∀ tr, (exec factory fuel (.finish c) w k).trace? = some tr →
    tr.head? = some (.finishCalled c))

/-- `__run`'s postcondition follows from `__onFinish`'s at the same wait
queue (the error path calls the handler without touching the queue). -/
theorem runP_of_finP (factory : Nat → FactoryResult) (fuel : Nat) (L : Nat)
    (hfin : ∀ w : Worker, w.waitingCommands.length ≤ L → ∀ k c,
      FinP factory fuel w c k) :
    ∀ w : Worker, w.waitingCommands.length ≤ L → ∀ k c cfg,
      RunP factory fuel w c cfg k := by
  intro w hw k c cfg
  by_cases h0 : w.sem = 0
  · have he := exec_run_sem0 factory fuel c cfg w k h0
    constructor
    · intro w' hw'
      rw [he] at hw'
      simp [Outcome.worker?] at hw'
    · intro msg w' k' tr h
      rw [he] at h
      cases h
  · cases hwait : fillWaitLoop factory fuel
        { w with sem := w.sem - 1, threadId := w.threadId + 1 } k with
    | spins =>
      have he := exec_run_spins factory fuel c cfg w k h0 hwait
      constructor
      · intro w' hw'
        rw [he] at hw'
        simp [Outcome.worker?] at hw'
      · intro msg w' k' tr h
        rw [he] at h
        cases h
    | ok w2 k2 =>
      have hcore : SameCore
          { w with sem := w.sem - 1, threadId := w.threadId + 1 } w2 :=
        fillWaitLoop_sameCore factory fuel _ k (by rw [hwait]; rfl)
      cases hidx : w2.freeConnections.getLast? with
      | none =>
        have he := exec_run_ok_none factory fuel c cfg w k w2 k2 h0 hwait hidx
        constructor
        · intro w' hw'
          rw [he] at hw'
          simp [Outcome.worker?] at hw'
        · intro msg w' k' tr h
          rw [he] at h
          cases h
      | some index =>
        have he := exec_run_ok_eq factory fuel c cfg w k w2 k2 index h0 hwait hidx
        constructor
        · intro w' hw'
          rw [he] at hw'
          simp only [Outcome.worker?, Option.some_inj] at hw'
          subst hw'
          refine ⟨hcore.1, ?_, ?_⟩
          · have : w2.sem = w.sem - 1 := hcore.2.2.2.1
            simp only [this]
            omega
          · have : w2.commands = w.commands := hcore.2.1
            simp [this]
        · intro msg w' k' tr h
          rw [he] at h
          cases h
    | raised msg2 w2 k2 =>
      have hcore : SameCore
          { w with sem := w.sem - 1, threadId := w.threadId + 1 } w2 :=
        fillWaitLoop_sameCore factory fuel _ k (by rw [hwait]; rfl)
      have hwlen : w2.waitingCommands.length ≤ L := by
        have : w2.waitingCommands = w.waitingCommands := hcore.2.2.1
        rw [this]; exact hw
      have hf := hfin w2 hwlen k2 c
      have he := exec_run_raised_eq factory fuel c cfg w k msg2 w2 k2 h0 hwait
      have hsem2 : w2.sem = w.sem - 1 := hcore.2.2.2.1
      have hcmds2 : w2.commands = w.commands := hcore.2.1
      constructor
      · intro w' hw'
        rw [he] at hw'
        cases hnest : exec factory fuel (.finish c) w2 k2 with
        | ok w3 k3 tr3 =>
          rw [hnest] at hw'
          simp only [raiseAfter, Outcome.worker?, Option.some_inj] at hw'
          subst hw'
          have h3 := hf.1 w3 (by rw [hnest]; rfl)
          refine ⟨h3.1.trans hcore.1, ?_, ?_⟩
          · simp only [h3.2.1, hsem2]
            omega
          · have hscan : (scanRemove c w2.commands).1.length ≤ w.commands.length := by
              rw [← hcmds2]
              exact scanRemove_length_le c w2.commands
            have := h3.2.2
            simp only []
            omega
        | raised msg3 w3 k3 tr3 =>
          rw [hnest] at hw'
          simp only [raiseAfter, Outcome.worker?, Option.some_inj] at hw'
          subst hw'
          have h3 := hf.1 w3 (by rw [hnest]; rfl)
          refine ⟨h3.1.trans hcore.1, ?_, ?_⟩
          · simp only [h3.2.1, hsem2]
            omega
          · have hscan : (scanRemove c w2.commands).1.length ≤ w.commands.length := by
              rw [← hcmds2]
              exact scanRemove_length_le c w2.commands
            have := h3.2.2
            simp only []
            omega
        | stuck =>
          rw [hnest] at hw'
          simp [raiseAfter, Outcome.worker?] at hw'
      · intro msg w' k' tr h
        rw [he] at h
        cases hnest : exec factory fuel (.finish c) w2 k2 with
        | ok w3 k3 tr3 =>
          rw [hnest] at h
          simp only [raiseAfter, Outcome.raised.injEq] at h
          have := hf.2 tr3 (by rw [hnest]; rfl)
          rw [← h.2.2.2]
          exact this
        | raised msg3 w3 k3 tr3 =>
          rw [hnest] at h
          simp only [raiseAfter, Outcome.raised.injEq] at h
          have := hf.2 tr3 (by rw [hnest]; rfl)
          rw [← h.2.2.2]
          exact this
        | stuck =>
          rw [hnest] at h
          cases h

/-- `__onFinish`'s postcondition follows from `__run`'s at any strictly
smaller wait queue (the wake-up pops one queued command first). -/
theorem finP_of_runP (factory : Nat → FactoryResult) (fuel : Nat) (L : Nat)
    (hrun : ∀ w : Worker, w.waitingCommands.length < L → ∀ k c cfg,
      RunP factory fuel w c cfg k) :
    ∀ w : Worker, w.waitingCommands.length ≤ L → ∀ k c,
      FinP factory fuel w c k := by
  intro w hw k c
  cases hlast : w.waitingCommands.getLast? with
  | none =>
    have hnil : w.waitingCommands = [] := by
      cases hempty : w.waitingCommands with
      | nil => rfl
      | cons x xs =>
        rw [hempty] at hlast
        simp [List.getLast?_eq_none_iff] at hlast
    have he := exec_finish_eq_none factory fuel c w k hnil
    constructor
    · intro w' hw'
      rw [he] at hw'
      simp only [Outcome.worker?, Option.some_inj] at hw'
      subst hw'
      exact ⟨rfl, rfl, Nat.le_succ _⟩
    · intro tr htr
      rw [he] at htr
      simp only [Outcome.trace?, Option.some_inj] at htr
      subst htr
      rfl
  | some awakened =>
    have hne : w.waitingCommands ≠ [] := by
      intro hnil
      rw [hnil] at hlast
      cases hlast
    have he := exec_finish_eq_some factory fuel c w k awakened hlast
    have hlen : ({ w with
        commands := (scanRemove c w.commands).1,
        freeConnections := w.freeConnections ++ (scanRemove c w.commands).2.1,
        waitingCommands := w.waitingCommands.dropLast } :
        Worker).waitingCommands.length < L := by
      have h1 : w.waitingCommands.dropLast.length = w.waitingCommands.length - 1 :=
        List.length_dropLast _
      have h2 : 0 < w.waitingCommands.length := List.length_pos.mpr hne
      simp only [h1]
      omega
    have hr := hrun _ hlen k awakened (scanRemove c w.commands).2.2
    constructor
    · intro w' hw'
      rw [he] at hw'
      cases hnest : exec factory fuel
          (.run awakened (scanRemove c w.commands).2.2)
          { w with
            commands := (scanRemove c w.commands).1,
            freeConnections := w.freeConnections ++ (scanRemove c w.commands).2.1,
            waitingCommands := w.waitingCommands.dropLast } k with
      | ok w3 k3 tr3 =>
        rw [hnest] at hw'
        simp only [prependFinish, Outcome.worker?, Option.some_inj] at hw'
        subst hw'
        have h3 := hr.1 w3 (by rw [hnest]; rfl)
        exact ⟨h3.1, h3.2.1, h3.2.2⟩
      | raised msg3 w3 k3 tr3 =>
        rw [hnest] at hw'
        simp only [prependFinish, Outcome.worker?, Option.some_inj] at hw'
        subst hw'
        have h3 := hr.1 w3 (by rw [hnest]; rfl)
        exact ⟨h3.1, h3.2.1, h3.2.2⟩
      | stuck =>
        rw [hnest] at hw'
        simp [prependFinish, Outcome.worker?] at hw'
    · intro tr htr
      rw [he] at htr
      cases hnest : exec factory fuel
          (.run awakened (scanRemove c w.commands).2.2)
          { w with
            commands := (scanRemove c w.commands).1,
            freeConnections := w.freeConnections ++ (scanRemove c w.commands).2.1,
            waitingCommands := w.waitingCommands.dropLast } k with
      | ok w3 k3 tr3 =>
        rw [hnest] at htr
        simp only [prependFinish, Outcome.trace?, Option.some_inj] at htr
        subst htr
        rfl
      | raised msg3 w3 k3 tr3 =>
        rw [hnest] at htr
        simp only [prependFinish, Outcome.trace?, Option.some_inj] at htr
        subst htr
        rfl
      | stuck =>
        rw [hnest] at htr
        cases htr

/-- The joint postcondition, by induction on the wait-queue length. -/
theorem finP_all (factory : Nat → FactoryResult) (fuel : Nat) :
    ∀ (L : Nat) (w : Worker), w.waitingCommands.length ≤ L → ∀ k c,
      FinP factory fuel w c k := by
  intro L
  induction L with
  | zero =>
    exact finP_of_runP factory fuel 0
      (fun w hw => absurd hw (Nat.not_lt_zero _))
  | succ n ih =>
    exact finP_of_runP factory fuel (n + 1)
      (fun w hw => runP_of_finP factory fuel n ih w (Nat.lt_succ_iff.mp hw))

/-- Every `__onFinish` call satisfies its postcondition. -/
theorem exec_finish_post (factory : Nat → FactoryResult) (fuel : Nat)
    (w : Worker) (k : Nat) (c : Cmd) : FinP factory fuel w c k :=
  finP_all factory fuel w.waitingCommands.length w le_rfl k c

/-- Every `__run` call satisfies its postcondition. -/
theorem exec_run_post (factory : Nat → FactoryResult) (fuel : Nat)
    (w : Worker) (k : Nat) (c : Cmd) (cfg : Option Config) :
    RunP factory fuel w c cfg k :=
  runP_of_finP factory fuel w.waitingCommands.length
    (fun w' hw' => finP_all factory fuel w.waitingCommands.length w' hw')
    w le_rfl k c cfg

/-- Exact shape of a `__run` call that returns normally: the dispatched
command is appended as a pending record carrying the fresh thread id and
the popped slot index; `setConnection` was called with the whole batch at
that index; nothing else of the core state changed. -/
theorem exec_run_ok_shape (factory : Nat → FactoryResult) (fuel : Nat)
    (w : Worker) (c : Cmd) (cfg : Option Config) (k : Nat)
    (w' : Worker) (k' : Nat) (tr : List PoolEvent)
    (h : exec factory fuel (.run c cfg) w k = .ok w' k' tr) :
    ∃ index,
      w'.commands = w.commands ++ [PendRec.mk c cfg index (w.threadId + 1)] ∧
      tr = [.setConn c (w'.connections.getD (index - 1) []) index,
            .started c (w.threadId + 1)] ∧
      w'.waitingCommands = w.waitingCommands ∧
      w'.limit = w.limit ∧ w'.sem = w.sem := by
  by_cases h0 : w.sem = 0
  · rw [exec_run_sem0 factory fuel c cfg w k h0] at h
    cases h
  · cases hwait : fillWaitLoop factory fuel
        { w with sem := w.sem - 1, threadId := w.threadId + 1 } k with
    | spins =>
      rw [exec_run_spins factory fuel c cfg w k h0 hwait] at h
      cases h
    | raised msg2 w2 k2 =>
      rw [exec_run_raised_eq factory fuel c cfg w k msg2 w2 k2 h0 hwait] at h
      cases hnest : exec factory fuel (.finish c) w2 k2 with
      | ok w3 k3 tr3 => rw [hnest] at h; cases h
      | raised msg3 w3 k3 tr3 => rw [hnest] at h; cases h
      | stuck => rw [hnest] at h; cases h
    | ok w2 k2 =>
      have hcore : SameCore
          { w with sem := w.sem - 1, threadId := w.threadId + 1 } w2 :=
        fillWaitLoop_sameCore factory fuel _ k (by rw [hwait]; rfl)
      cases hidx : w2.freeConnections.getLast? with
      | none =>
        rw [exec_run_ok_none factory fuel c cfg w k w2 k2 h0 hwait hidx] at h
        cases h
      | some index =>
        rw [exec_run_ok_eq factory fuel c cfg w k w2 k2 index h0 hwait hidx] at h
        simp only [Outcome.ok.injEq] at h
        obtain ⟨hw', hk', htr⟩ := h
        subst hw'
        have hcmds : w2.commands = w.commands := hcore.2.1
        have htid : w2.threadId = w.threadId + 1 := hcore.2.2.2.2
        have hsem : w2.sem = w.sem - 1 := hcore.2.2.2.1
        have hwt : w2.waitingCommands = w.waitingCommands := hcore.2.2.1
        refine ⟨index, ?_, ?_, ?_, hcore.1, ?_⟩
        · simp [hcmds, htid]
        · rw [← htr]
          simp [htid]
        · simpa using hwt
        · simp only [hsem]
          omega

/-- The polls of the executor's finalization loop: some number of checks
that observed the command still running, then the one check that observed
it finished. -/
theorem pollPhase_shape (isRunning : Nat → Bool) :
    ∀ (fuel i : Nat) (polls : List RCEvent),
      pollPhase isRunning i fuel = some polls →
      ∃ m, polls = List.replicate m (.poll true) ++ [.poll false] := by
  intro fuel
  induction fuel with
  | zero => intro i polls h; cases h
  | succ n ih =>
    intro i polls h
    unfold pollPhase at h
    split at h
    · cases hp : pollPhase isRunning (i + 1) n with
      | none => rw [hp] at h; cases h
      | some tl =>
        rw [hp] at h
        simp only [Option.map_some', Option.some_inj] at h
        obtain ⟨m, hm⟩ := ih (i + 1) tl hp
        exact ⟨m + 1, by rw [← h, hm]; rfl⟩
    · simp only [Option.some_inj] at h
      exact ⟨0, by rw [← h]; rfl⟩

/-! ### Concrete scenarios (used by the witnesses) -/

/-- A factory that always opens a one-connection batch. -/
def facOne : Nat → FactoryResult := fun _ => .ok [100]

/-- A factory whose first call is refused and whose second call fails
differently; neither failure is a "too many connections" condition. -/
def facTwoErrs : Nat → FactoryResult
  | 0 => .err "Connection refused"
  | _ => .err "Network unreachable"

/-- A `limit = 2` pool with one queued command, nothing running and both
gate permits free. -/
def wTwoQueued : Worker := ⟨2, [], [], [10], 0, 2, []⟩

/-- Evaluation: dispatching command 7 on a fresh `limit = 1` pool opens
batch `[100]`, binds it via slot 1 and records the command. -/
theorem exec_fresh_eval :
    exec facOne 1 (.run 7 (some 42)) (mkWorker 1) 0 =
      .ok ⟨1, [[100]], [PendRec.mk 7 (some 42) 1 1], [], 1, 1, []⟩ 1
        [.setConn 7 [100] 1, .started 7 1] := by
  rw [exec_run_ok_eq facOne 1 7 (some 42) (mkWorker 1) 0
    ⟨1, [[100]], [], [], 1, 0, [1]⟩ 1 1 (by decide) (by decide) (by decide)]
  rfl

/-- Evaluation: `addCommand` on the fresh pool takes the dispatch branch. -/
theorem addCommand_fresh_eval :
    addCommand facOne 1 (mkWorker 1) 7 42 0 =
      .ok ⟨1, [[100]], [PendRec.mk 7 (some 42) 1 1], [], 1, 1, []⟩ 1
        [.setConn 7 [100] 1, .started 7 1] := by
  have hstep : addCommand facOne 1 (mkWorker 1) 7 42 0 =
      exec facOne 1 (.run 7 (some 42)) (mkWorker 1) 0 := by
    unfold addCommand
    rw [if_neg (by decide)]
  rw [hstep, exec_fresh_eval]

/-- Evaluation of the cascading-failure scenario: the dispatch of command 9
fails with "Connection refused", its handler wakes the queued command 10,
whose dispatch fails with "Network unreachable", and the latter message is
the one that propagates. -/
theorem exec_twoErrs_eval :
    exec facTwoErrs 2 (.run 9 (some 0)) wTwoQueued 0 =
      .raised "Network unreachable" ⟨2, [], [], [], 2, 2, []⟩ 2
        [.finishCalled 9, .finishCalled 10] := by
  have e4 : exec facTwoErrs 2 (.finish 10) ⟨2, [], [], [], 2, 0, []⟩ 2 =
      .ok ⟨2, [], [], [], 2, 0, []⟩ 2 [.finishCalled 10] := by
    rw [exec_finish_eq_none facTwoErrs 2 10 ⟨2, [], [], [], 2, 0, []⟩ 2 rfl]
    rfl
  have e3 : exec facTwoErrs 2 (.run 10 none) ⟨2, [], [], [], 1, 1, []⟩ 1 =
      .raised "Network unreachable" ⟨2, [], [], [], 2, 1, []⟩ 2
        [.finishCalled 10] := by
    rw [exec_run_raised_eq facTwoErrs 2 10 none ⟨2, [], [], [], 1, 1, []⟩ 1
      "Network unreachable" ⟨2, [], [], [], 2, 0, []⟩ 2 (by decide) (by decide),
      e4]
    rfl
  have e2 : exec facTwoErrs 2 (.finish 9) ⟨2, [], [], [10], 1, 1, []⟩ 1 =
      .raised "Network unreachable" ⟨2, [], [], [], 2, 1, []⟩ 2
        [.finishCalled 9, .finishCalled 10] := by
    rw [exec_finish_eq_some facTwoErrs 2 9 ⟨2, [], [], [10], 1, 1, []⟩ 1 10 rfl]
    show prependFinish 9
      (exec facTwoErrs 2 (.run 10 none) ⟨2, [], [], [], 1, 1, []⟩ 1) = _
    rw [e3]
    rfl
  rw [exec_run_raised_eq facTwoErrs 2 9 (some 0) wTwoQueued 0
    "Connection refused" ⟨2, [], [], [10], 1, 1, []⟩ 1 (by decide) (by decide),
    e2]
  rfl

/-! ### The claims -/

/-- Boundary of the concurrency bound: an admission event, or a finish
event for a command that still has a pending record, never pushes the
running-command list beyond `limit`.  The bound can therefore fail only
through a finish event with no matching record — which the
remove-while-iterating slip of `__onFinish`'s scan makes reachable from a
fresh pool (see `C1_limit_overrun`). -/
theorem stepPool_matched_finish_bound (factory : Nat → FactoryResult)
    (fuel : Nat) (w : Worker) (s : PoolStep) (k : Nat) (w' : Worker)
    (hlim : w.commands.length ≤ w.limit)
    (hfin : ∀ c, s = .finish c → ∃ r ∈ w.commands, r.command = c)
    (hw' : (stepPool factory fuel w s k).worker? = some w') :
    w'.commands.length ≤ w'.limit := by
  cases s with
  | add c cfg =>
    simp only [stepPool, addCommand] at hw'
    split at hw'
    · rename_i hge
      simp only [Outcome.worker?, Option.some_inj] at hw'
      subst hw'
      exact hlim
    · rename_i hlt
      have hp := (exec_run_post factory fuel w k c (some cfg)).1 w' hw'
      rw [hp.1]
      omega
  | finish c =>
    obtain ⟨r, hr, hrc⟩ := hfin c rfl
    simp only [stepPool] at hw'
    have hp := (exec_finish_post factory fuel w k c).1 w' hw'
    have hlt := scanRemove_length_lt c w.commands ⟨r, hr, hrc⟩
    rw [hp.1]
    omega

/-- A step that returns normally chains into the rest of the event
sequence. -/
theorem runSteps_cons_ok {factory : Nat → FactoryResult} {fuel : Nat}
    {w : Worker} {s : PoolStep} {k : Nat} {w' : Worker} {k' : Nat}
    {tr : List PoolEvent} (rest : List PoolStep)
    (h : stepPool factory fuel w s k = .ok w' k' tr) :
    runSteps factory fuel w (s :: rest) k =
      runSteps factory fuel w' rest k' := by
  conv_lhs => rw [runSteps]
  rw [h]

/-- The pool state the overrun sequence of `C1_limit_overrun` reaches:
four pending records on a `limit = 3` pool. -/
def wOverrun : Worker :=
  ⟨3, [[100], [100], [100], [100]],
   [PendRec.mk 2 (some 0) 4 4, PendRec.mk 3 (some 0) 3 5,
    PendRec.mk 4 (some 0) 2 6, PendRec.mk 5 none 1 7], [], 7, 3, []⟩

/-- C1: the claimed invariant — the running-command record list never
exceeds `limit` over any sequence of admissions with executor completions
interleaved — fails on the code.  Admitting the same command object three
times on a fresh `limit = 3` pool gives it three pending records and three
executor completions.  The first completion's remove-while-iterating scan
removes TWO of those records (`for`/`remove` skips the element after each
removal, so it removes the records at positions 0 and 2 and never examines
the one at position 1); the second completion removes the remaining one;
the third completion then finds no record, frees no slot, removes nothing —
and still pops and dispatches a queued command, so the record list reaches
length 4 on a `limit = 3` pool.  Every event below is legitimate: the three
`finish 1` events are the three started executors of command 1 completing,
and the factory always succeeds. -/
theorem C1_limit_overrun :
    runSteps facOne 1 (mkWorker 3)
      [.add 1 0, .add 1 0, .add 1 0, .add 2 0, .finish 1, .add 3 0,
       .add 4 0, .finish 1, .add 5 0, .finish 1] 0 =
      some (wOverrun, 4) ∧
    wOverrun.limit < wOverrun.commands.length := by
  refine ⟨?_, by decide⟩
  have s1 : stepPool facOne 1 (mkWorker 3) (.add 1 0) 0 =
      .ok ⟨3, [[100]], [PendRec.mk 1 (some 0) 1 1], [], 1, 3, []⟩ 1
        [.setConn 1 [100] 1, .started 1 1] := by
    show exec facOne 1 (.run 1 (some 0)) (mkWorker 3) 0 = _
    rw [exec_run_ok_eq facOne 1 1 (some 0) (mkWorker 3) 0
      ⟨3, [[100]], [], [], 1, 2, [1]⟩ 1 1 (by decide) (by decide) (by decide)]
    rfl
  have s2 : stepPool facOne 1
      (⟨3, [[100]], [PendRec.mk 1 (some 0) 1 1], [], 1, 3, []⟩ : Worker)
      (.add 1 0) 1 =
      .ok ⟨3, [[100], [100]],
        [PendRec.mk 1 (some 0) 1 1, PendRec.mk 1 (some 0) 2 2], [], 2, 3, []⟩
        2 [.setConn 1 [100] 2, .started 1 2] := by
    show exec facOne 1 (.run 1 (some 0))
      ⟨3, [[100]], [PendRec.mk 1 (some 0) 1 1], [], 1, 3, []⟩ 1 = _
    rw [exec_run_ok_eq facOne 1 1 (some 0)
      ⟨3, [[100]], [PendRec.mk 1 (some 0) 1 1], [], 1, 3, []⟩ 1
      ⟨3, [[100], [100]], [PendRec.mk 1 (some 0) 1 1], [], 2, 2, [2]⟩ 2 2
      (by decide) (by decide) (by decide)]
    rfl
  have s3 : stepPool facOne 1
      (⟨3, [[100], [100]],
        [PendRec.mk 1 (some 0) 1 1, PendRec.mk 1 (some 0) 2 2], [], 2, 3, []⟩ :
        Worker) (.add 1 0) 2 =
      .ok ⟨3, [[100], [100], [100]],
        [PendRec.mk 1 (some 0) 1 1, PendRec.mk 1 (some 0) 2 2,
         PendRec.mk 1 (some 0) 3 3], [], 3, 3, []⟩
        3 [.setConn 1 [100] 3, .started 1 3] := by
    show exec facOne 1 (.run 1 (some 0))
      ⟨3, [[100], [100]],
        [PendRec.mk 1 (some 0) 1 1, PendRec.mk 1 (some 0) 2 2], [], 2, 3, []⟩
      2 = _
    rw [exec_run_ok_eq facOne 1 1 (some 0)
      ⟨3, [[100], [100]],
        [PendRec.mk 1 (some 0) 1 1, PendRec.mk 1 (some 0) 2 2], [], 2, 3, []⟩
      2
      ⟨3, [[100], [100], [100]],
        [PendRec.mk 1 (some 0) 1 1, PendRec.mk 1 (some 0) 2 2], [], 3, 2, [3]⟩
      3 3 (by decide) (by decide) (by decide)]
    rfl
  have s4 : stepPool facOne 1
      (⟨3, [[100], [100], [100]],
        [PendRec.mk 1 (some 0) 1 1, PendRec.mk 1 (some 0) 2 2,
         PendRec.mk 1 (some 0) 3 3], [], 3, 3, []⟩ : Worker) (.add 2 0) 3 =
      .ok ⟨3, [[100], [100], [100]],
        [PendRec.mk 1 (some 0) 1 1, PendRec.mk 1 (some 0) 2 2,
         PendRec.mk 1 (some 0) 3 3], [2], 3, 3, []⟩ 3 [.queued 2] := by
    decide
  have s5 : stepPool facOne 1
      (⟨3, [[100], [100], [100]],
        [PendRec.mk 1 (some 0) 1 1, PendRec.mk 1 (some 0) 2 2,
         PendRec.mk 1 (some 0) 3 3], [2], 3, 3, []⟩ : Worker) (.finish 1) 3 =
      .ok ⟨3, [[100], [100], [100], [100]],
        [PendRec.mk 1 (some 0) 2 2, PendRec.mk 2 (some 0) 4 4], [], 4, 3,
        [1, 3]⟩ 4
        [.finishCalled 1, .setConn 2 [100] 4, .started 2 4] := by
    show exec facOne 1 (.finish 1)
      ⟨3, [[100], [100], [100]],
        [PendRec.mk 1 (some 0) 1 1, PendRec.mk 1 (some 0) 2 2,
         PendRec.mk 1 (some 0) 3 3], [2], 3, 3, []⟩ 3 = _
    rw [exec_finish_eq_some facOne 1 1
      ⟨3, [[100], [100], [100]],
        [PendRec.mk 1 (some 0) 1 1, PendRec.mk 1 (some 0) 2 2,
         PendRec.mk 1 (some 0) 3 3], [2], 3, 3, []⟩ 3 2 (by decide)]
    show prependFinish 1 (exec facOne 1 (.run 2 (some 0))
      ⟨3, [[100], [100], [100]], [PendRec.mk 1 (some 0) 2 2], [], 3, 3,
        [1, 3]⟩ 3) = _
    rw [exec_run_ok_eq facOne 1 2 (some 0)
      ⟨3, [[100], [100], [100]], [PendRec.mk 1 (some 0) 2 2], [], 3, 3,
        [1, 3]⟩ 3
      ⟨3, [[100], [100], [100], [100]], [PendRec.mk 1 (some 0) 2 2], [], 4, 2,
        [1, 3, 4]⟩ 4 4 (by decide) (by decide) (by decide)]
    rfl
  have s6 : stepPool facOne 1
      (⟨3, [[100], [100], [100], [100]],
        [PendRec.mk 1 (some 0) 2 2, PendRec.mk 2 (some 0) 4 4], [], 4, 3,
        [1, 3]⟩ : Worker) (.add 3 0) 4 =
      .ok ⟨3, [[100], [100], [100], [100]],
        [PendRec.mk 1 (some 0) 2 2, PendRec.mk 2 (some 0) 4 4,
         PendRec.mk 3 (some 0) 3 5], [], 5, 3, [1]⟩ 4
        [.setConn 3 [100] 3, .started 3 5] := by
    show exec facOne 1 (.run 3 (some 0))
      ⟨3, [[100], [100], [100], [100]],
        [PendRec.mk 1 (some 0) 2 2, PendRec.mk 2 (some 0) 4 4], [], 4, 3,
        [1, 3]⟩ 4 = _
    rw [exec_run_ok_eq facOne 1 3 (some 0)
      ⟨3, [[100], [100], [100], [100]],
        [PendRec.mk 1 (some 0) 2 2, PendRec.mk 2 (some 0) 4 4], [], 4, 3,
        [1, 3]⟩ 4
      ⟨3, [[100], [100], [100], [100]],
        [PendRec.mk 1 (some 0) 2 2, PendRec.mk 2 (some 0) 4 4], [], 5, 2,
        [1, 3]⟩ 4 3 (by decide) (by decide) (by decide)]
    rfl
  have s7 : stepPool facOne 1
      (⟨3, [[100], [100], [100], [100]],
        [PendRec.mk 1 (some 0) 2 2, PendRec.mk 2 (some 0) 4 4,
         PendRec.mk 3 (some 0) 3 5], [], 5, 3, [1]⟩ : Worker) (.add 4 0) 4 =
      .ok ⟨3, [[100], [100], [100], [100]],
        [PendRec.mk 1 (some 0) 2 2, PendRec.mk 2 (some 0) 4 4,
         PendRec.mk 3 (some 0) 3 5], [4], 5, 3, [1]⟩ 4 [.queued 4] := by
    decide
  have s8 : stepPool facOne 1
      (⟨3, [[100], [100], [100], [100]],
        [PendRec.mk 1 (some 0) 2 2, PendRec.mk 2 (some 0) 4 4,
         PendRec.mk 3 (some 0) 3 5], [4], 5, 3, [1]⟩ : Worker) (.finish 1) 4 =
      .ok ⟨3, [[100], [100], [100], [100]],
        [PendRec.mk 2 (some 0) 4 4, PendRec.mk 3 (some 0) 3 5,
         PendRec.mk 4 (some 0) 2 6], [], 6, 3, [1]⟩ 4
        [.finishCalled 1, .setConn 4 [100] 2, .started 4 6] := by
    show exec facOne 1 (.finish 1)
      ⟨3, [[100], [100], [100], [100]],
        [PendRec.mk 1 (some 0) 2 2, PendRec.mk 2 (some 0) 4 4,
         PendRec.mk 3 (some 0) 3 5], [4], 5, 3, [1]⟩ 4 = _
    rw [exec_finish_eq_some facOne 1 1
      ⟨3, [[100], [100], [100], [100]],
        [PendRec.mk 1 (some 0) 2 2, PendRec.mk 2 (some 0) 4 4,
         PendRec.mk 3 (some 0) 3 5], [4], 5, 3, [1]⟩ 4 4 (by decide)]
    show prependFinish 1 (exec facOne 1 (.run 4 (some 0))
      ⟨3, [[100], [100], [100], [100]],
        [PendRec.mk 2 (some 0) 4 4, PendRec.mk 3 (some 0) 3 5], [], 5, 3,
        [1, 2]⟩ 4) = _
    rw [exec_run_ok_eq facOne 1 4 (some 0)
      ⟨3, [[100], [100], [100], [100]],
        [PendRec.mk 2 (some 0) 4 4, PendRec.mk 3 (some 0) 3 5], [], 5, 3,
        [1, 2]⟩ 4
      ⟨3, [[100], [100], [100], [100]],
        [PendRec.mk 2 (some 0) 4 4, PendRec.mk 3 (some 0) 3 5], [], 6, 2,
        [1, 2]⟩ 4 2 (by decide) (by decide) (by decide)]
    rfl
  have s9 : stepPool facOne 1
      (⟨3, [[100], [100], [100], [100]],
        [PendRec.mk 2 (some 0) 4 4, PendRec.mk 3 (some 0) 3 5,
         PendRec.mk 4 (some 0) 2 6], [], 6, 3, [1]⟩ : Worker) (.add 5 0) 4 =
      .ok ⟨3, [[100], [100], [100], [100]],
        [PendRec.mk 2 (some 0) 4 4, PendRec.mk 3 (some 0) 3 5,
         PendRec.mk 4 (some 0) 2 6], [5], 6, 3, [1]⟩ 4 [.queued 5] := by
    decide
  have s10 : stepPool facOne 1
      (⟨3, [[100], [100], [100], [100]],
        [PendRec.mk 2 (some 0) 4 4, PendRec.mk 3 (some 0) 3 5,
         PendRec.mk 4 (some 0) 2 6], [5], 6, 3, [1]⟩ : Worker) (.finish 1) 4 =
      .ok wOverrun 4
        [.finishCalled 1, .setConn 5 [100] 1, .started 5 7] := by
    show exec facOne 1 (.finish 1)
      ⟨3, [[100], [100], [100], [100]],
        [PendRec.mk 2 (some 0) 4 4, PendRec.mk 3 (some 0) 3 5,
         PendRec.mk 4 (some 0) 2 6], [5], 6, 3, [1]⟩ 4 = _
    rw [exec_finish_eq_some facOne 1 1
      ⟨3, [[100], [100], [100], [100]],
        [PendRec.mk 2 (some 0) 4 4, PendRec.mk 3 (some 0) 3 5,
         PendRec.mk 4 (some 0) 2 6], [5], 6, 3, [1]⟩ 4 5 (by decide)]
    show prependFinish 1 (exec facOne 1 (.run 5 none)
      ⟨3, [[100], [100], [100], [100]],
        [PendRec.mk 2 (some 0) 4 4, PendRec.mk 3 (some 0) 3 5,
         PendRec.mk 4 (some 0) 2 6], [], 6, 3, [1]⟩ 4) = _
    rw [exec_run_ok_eq facOne 1 5 none
      ⟨3, [[100], [100], [100], [100]],
        [PendRec.mk 2 (some 0) 4 4, PendRec.mk 3 (some 0) 3 5,
         PendRec.mk 4 (some 0) 2 6], [], 6, 3, [1]⟩ 4
      ⟨3, [[100], [100], [100], [100]],
        [PendRec.mk 2 (some 0) 4 4, PendRec.mk 3 (some 0) 3 5,
         PendRec.mk 4 (some 0) 2 6], [], 7, 2, [1]⟩ 4 1
      (by decide) (by decide) (by decide)]
    rfl
  rw [runSteps_cons_ok _ s1, runSteps_cons_ok _ s2, runSteps_cons_ok _ s3,
      runSteps_cons_ok _ s4, runSteps_cons_ok _ s5, runSteps_cons_ok _ s6,
      runSteps_cons_ok _ s7, runSteps_cons_ok _ s8, runSteps_cons_ok _ s9,
      runSteps_cons_ok _ s10]
  rfl

/-- Is the event a `command.execute()` call? -/
def RCEvent.isExec : RCEvent → Bool
  | .execCall _ => true
  | _ => false

theorem getLast?_cons_concat (a f : RCEvent) (L : List RCEvent) :
    (a :: (L ++ [f])).getLast? = some f := by
  rw [← List.cons_append, List.getLast?_concat]

/-- Facts about the executor's poll block: it holds no `execute()` call and
no `onFinish` call, it ends with the check that observed `False`, and every
event in it is a poll. -/
theorem pollBlock_facts (m : Nat) :
    (List.replicate m (RCEvent.poll true) ++
        [RCEvent.poll false]).countP RCEvent.isExec = 0 ∧
    (List.replicate m (RCEvent.poll true) ++
        [RCEvent.poll false]).count RCEvent.finishCall = 0 ∧
    (List.replicate m (RCEvent.poll true) ++
        [RCEvent.poll false]).getLast? = some (RCEvent.poll false) ∧
    ∀ e ∈ List.replicate m (RCEvent.poll true) ++ [RCEvent.poll false],
      ∃ b, e = RCEvent.poll b := by
  refine ⟨?_, ?_, List.getLast?_concat _, ?_⟩
  · rw [List.countP_eq_zero]
    intro e he
    rcases List.mem_append.mp he with h1 | h1
    · rw [List.eq_of_mem_replicate h1]
      simp [RCEvent.isExec]
    · simp only [List.mem_singleton] at h1
      subst h1
      simp [RCEvent.isExec]
  · rw [List.count_eq_zero]
    intro hmem
    rcases List.mem_append.mp hmem with h1 | h1
    · cases List.eq_of_mem_replicate h1
    · simp at h1
  · intro e he
    rcases List.mem_append.mp he with h1 | h1
    · exact ⟨true, List.eq_of_mem_replicate h1⟩
    · simp only [List.mem_singleton] at h1
      exact ⟨false, h1⟩

/-- C2: for every command whose `isRunning()` eventually returns false (the
modelled run terminates with result `r`), the executor calls `execute()`
exactly once when the first call succeeds and exactly twice otherwise (the
single retry); `onFinish` is invoked exactly once, as the very last action,
after the polling loop has observed `isRunning() = false`; and an exception
escapes `run` exactly when both `execute()` calls failed. -/
theorem C2_executor_retry (exec1 exec2 : Bool) (isRunning : Nat → Bool)
    (fuel : Nat) (r : RCResult)
    (h : rcRun exec1 exec2 isRunning fuel = some r) :
    r.trace.countP RCEvent.isExec = (if exec1 then 1 else 2) ∧
    r.trace.count RCEvent.finishCall = 1 ∧
    r.trace.getLast? = some RCEvent.finishCall ∧
    (∃ polls, r.trace =
        (if exec1 then [RCEvent.execCall true]
         else [RCEvent.execCall false, RCEvent.execCall exec2]) ++
          polls ++ [RCEvent.finishCall] ∧
      polls.getLast? = some (RCEvent.poll false) ∧
      ∀ e ∈ polls, ∃ b, e = RCEvent.poll b) ∧
    r.raised = (!exec1 && !exec2) := by
  cases hp : pollPhase isRunning 0 fuel with
  | none =>
    unfold rcRun at h
    rw [hp] at h
    cases h
  | some polls =>
    obtain ⟨m, hm⟩ := pollPhase_shape isRunning fuel 0 polls hp
    subst hm
    obtain ⟨hc1, hc2, hc3, hc4⟩ := pollBlock_facts m
    cases exec1 <;> cases exec2 <;>
      (unfold rcRun at h
       rw [hp] at h
       simp only [Bool.false_eq_true, if_false, if_true, Option.some_inj] at h
       subst h) <;>
      refine ⟨?_, ?_, ?_, ⟨_, rfl, hc3, hc4⟩, rfl⟩ <;>
      simp [List.countP_append, List.count_append, hc1, hc2, RCEvent.isExec,
        ← List.append_assoc, List.getLast?_concat, getLast?_cons_concat]

theorem C2_executor_retry_witness :
    (rcRun false true (fun i => decide (i < 2)) 5 = some
      ⟨[RCEvent.execCall false, RCEvent.execCall true, RCEvent.poll true,
        RCEvent.poll true, RCEvent.poll false, RCEvent.finishCall], false⟩) ∧
    ([RCEvent.execCall false, RCEvent.execCall true, RCEvent.poll true,
        RCEvent.poll true, RCEvent.poll false,
        RCEvent.finishCall].countP RCEvent.isExec = 2 ∧
      [RCEvent.execCall false, RCEvent.execCall true, RCEvent.poll true,
        RCEvent.poll true, RCEvent.poll false,
        RCEvent.finishCall].count RCEvent.finishCall = 1) := by
  refine ⟨by decide, ?_, ?_⟩
  · have hw := C2_executor_retry false true (fun i => decide (i < 2)) 5
      ⟨[RCEvent.execCall false, RCEvent.execCall true, RCEvent.poll true,
        RCEvent.poll true, RCEvent.poll false, RCEvent.finishCall], false⟩
      (by decide)
    simpa using hw.1
  · have hw := C2_executor_retry false true (fun i => decide (i < 2)) 5
      ⟨[RCEvent.execCall false, RCEvent.execCall true, RCEvent.poll true,
        RCEvent.poll true, RCEvent.poll false, RCEvent.finishCall], false⟩
      (by decide)
    exact hw.2.1

/-- C3: `addCommand` with the running count at least `limit` appends the
command to the wait queue and changes nothing else (in particular the
running-command list); with the running count strictly below `limit` it
dispatches at once: when the dispatch returns normally the command has been
bound to a connection batch (the `setConn` event) and recorded as running,
as the appended pending record. -/
theorem C3_admission (factory : Nat → FactoryResult) (fuel : Nat)
    (w : Worker) (c : Cmd) (cfg : Config) (k : Nat) :
    (w.limit ≤ w.commands.length →
      addCommand factory fuel w c cfg k =
        .ok { w with waitingCommands := w.waitingCommands ++ [c] } k
          [.queued c]) ∧
    (w.commands.length < w.limit →
      ∀ w' k' tr, addCommand factory fuel w c cfg k = .ok w' k' tr →
        ∃ index,
          w'.commands =
            w.commands ++ [PendRec.mk c (some cfg) index (w.threadId + 1)] ∧
          tr = [.setConn c (w'.connections.getD (index - 1) []) index,
                .started c (w.threadId + 1)]) := by
  constructor
  · intro hge
    unfold addCommand
    rw [if_pos hge]
  · intro hlt w' k' tr h
    have hstep : addCommand factory fuel w c cfg k =
        exec factory fuel (.run c (some cfg)) w k := by
      unfold addCommand
      rw [if_neg (by omega)]
    rw [hstep] at h
    obtain ⟨index, h1, h2, _, _, _⟩ :=
      exec_run_ok_shape factory fuel w c (some cfg) k w' k' tr h
    exact ⟨index, h1, h2⟩

theorem C3_admission_witness :
    (addCommand facOne 1 (mkWorker 0) 5 7 0 =
      .ok { mkWorker 0 with waitingCommands := [5] } 0 [.queued 5]) ∧
    (∃ index,
      (⟨1, [[100]], [PendRec.mk 7 (some 42) 1 1], [], 1, 1, []⟩ :
          Worker).commands =
        (mkWorker 1).commands ++
          [PendRec.mk 7 (some 42) index ((mkWorker 1).threadId + 1)] ∧
      ([.setConn 7 [100] 1, .started 7 1] : List PoolEvent) =
        [.setConn 7
          ((⟨1, [[100]], [PendRec.mk 7 (some 42) 1 1], [], 1, 1, []⟩ :
            Worker).connections.getD (index - 1) []) index,
         .started 7 ((mkWorker 1).threadId + 1)]) :=
  ⟨(C3_admission facOne 1 (mkWorker 0) 5 7 0).1 (by decide),
   (C3_admission facOne 1 (mkWorker 1) 7 42 0).2 (by decide) _ _ _
     addCommand_fresh_eval⟩

/-- C4: a finish callback for a command with exactly one pending record,
arriving while the wait queue is non-empty, removes exactly the most
recently queued command (LIFO) from the queue and dispatches it through the
same `__run` path, passing the config captured from the finished command's
record; the record is removed and its slot index freed. -/
theorem C4_lifo_wakeup (factory : Nat → FactoryResult) (fuel : Nat)
    (w : Worker) (c : Cmd) (k : Nat) (l1 l2 : List PendRec) (r : PendRec)
    (ws : List Cmd) (awakened : Cmd)
    (hcmds : w.commands = l1 ++ r :: l2)
    (hr : r.command = c)
    (h1 : ∀ x ∈ l1, x.command ≠ c) (h2 : ∀ x ∈ l2, x.command ≠ c)
    (hwt : w.waitingCommands = ws ++ [awakened]) :
    exec factory fuel (.finish c) w k =
      prependFinish c (exec factory fuel (.run awakened r.config)
        { w with
          commands := l1 ++ l2,
          freeConnections := w.freeConnections ++ [r.index],
          waitingCommands := ws } k) := by
  have hscan : scanRemove c w.commands = (l1 ++ l2, [r.index], r.config) := by
    rw [hcmds]
    exact scanRemove_unique c l1 l2 r hr h1 h2
  have hlast : w.waitingCommands.getLast? = some awakened := by
    rw [hwt]
    exact List.getLast?_concat ws
  rw [exec_finish_eq_some factory fuel c w k awakened hlast, hscan, hwt]
  simp [List.dropLast_concat]

theorem C4_lifo_wakeup_witness :
    exec facOne 3 (.finish 3) ⟨2, [[100]], [PendRec.mk 3 (some 7) 1 1],
        [8, 9], 1, 2, []⟩ 1 =
      prependFinish 3 (exec facOne 3 (.run 9 (some 7))
        ⟨2, [[100]], [], [8], 1, 2, [1]⟩ 1) := by
  have hw := C4_lifo_wakeup facOne 3
    ⟨2, [[100]], [PendRec.mk 3 (some 7) 1 1], [8, 9], 1, 2, []⟩ 3 1
    [] [] (PendRec.mk 3 (some 7) 1 1) [8] 9 rfl rfl
    (by intro x hx; cases hx) (by intro x hx; cases hx) rfl
  exact hw

/-- C5: `fillConnection` attempts creation only while
`len(connections) <= limit`, so a fill can push the batch count at most one
past `limit` (to `limit + 1`) and never further; when the count already
exceeds `limit` the call returns with the state (connection list and free
set) unchanged and without consulting the factory. -/
theorem C5_fill_threshold (factory : Nat → FactoryResult)
    (w : Worker) (k : Nat) :
    (w.limit < w.connections.length →
      fillConnection factory w k = .ok w k false) ∧
    (∀ w' k' b, fillConnection factory w k = .ok w' k' b →
      w'.connections.length ≤ max (w.limit + 1) w.connections.length) := by
  constructor
  · intro hgt
    unfold fillConnection
    rw [if_neg (by omega)]
  · intro w' k' b h
    unfold fillConnection at h
    split at h
    · rename_i hle
      split at h
      · split at h
        · cases h
          simp only [List.length_append, List.length_singleton]
          omega
        · cases h
          omega
      · split at h
        · cases h
          omega
        · cases h
    · cases h
      omega

theorem C5_fill_threshold_witness :
    (fillConnection facOne (⟨0, [[1]], [], [], 0, 0, []⟩ : Worker) 0 =
      .ok ⟨0, [[1]], [], [], 0, 0, []⟩ 0 false) ∧
    ((⟨1, [[100]], [], [], 0, 1, [1]⟩ : Worker).connections.length ≤
      max ((mkWorker 1).limit + 1) (mkWorker 1).connections.length) :=
  ⟨(C5_fill_threshold facOne ⟨0, [[1]], [], [], 0, 0, []⟩ 0).1 (by decide),
   (C5_fill_threshold facOne (mkWorker 1) 0).2
     ⟨1, [[100]], [], [], 0, 1, [1]⟩ 1 false (by decide)⟩

/-- C6: when the factory call inside `fillConnection` raises and the
message contains "too many connections" (case-insensitively), the call
backs off and returns normally with the connection list and free set
unchanged; any other factory error is re-raised to the caller. -/
theorem C6_fill_error (factory : Nat → FactoryResult) (w : Worker) (k : Nat)
    (msg : String)
    (hlen : w.connections.length ≤ w.limit)
    (hfac : factory k = .err msg) :
    (isTooManyConnections msg = true →
      fillConnection factory w k = .ok w (k + 1) true) ∧
    (isTooManyConnections msg = false →
      fillConnection factory w k = .raised msg (k + 1)) := by
  unfold fillConnection
  rw [if_pos hlen, hfac]
  constructor
  · intro h
    simp [h]
  · intro h
    simp [h]

theorem C6_fill_error_witness :
    (fillConnection (fun _ => .err "530 Too many connections from your IP")
        (mkWorker 2) 0 = .ok (mkWorker 2) 1 true) ∧
    (fillConnection (fun _ => .err "Connection refused") (mkWorker 2) 0 =
      .raised "Connection refused" 1) :=
  ⟨(C6_fill_error (fun _ => .err "530 Too many connections from your IP")
      (mkWorker 2) 0 "530 Too many connections from your IP"
      (by decide) rfl).1 (by decide),
   (C6_fill_error (fun _ => .err "Connection refused")
      (mkWorker 2) 0 "Connection refused" (by decide) rfl).2 (by decide)⟩

/-- C7 (amended): the counting gate is released on every completed path of
the dispatch — the final semaphore count equals the initial one for both a
normal return and a propagated exception; on an exception the completion
handler runs first, synchronously, with the failed command (the trace
starts with its finish event); and the dispatch exception itself is
re-raised to the caller exactly when the handler returns normally — if the
handler's wake-up dispatch raises instead, that exception supersedes it
(see `C7_counterexample`). -/
theorem C7_gate_released (factory : Nat → FactoryResult) (fuel : Nat)
    (w : Worker) (c : Cmd) (cfg : Option Config) (k : Nat) :
    (∀ w' k' tr, exec factory fuel (.run c cfg) w k = .ok w' k' tr →
      w'.sem = w.sem) ∧
    (∀ msg w' k' tr, exec factory fuel (.run c cfg) w k = .raised msg w' k' tr →
      w'.sem = w.sem ∧ tr.head? = some (.finishCalled c)) ∧
    (∀ msg w2 k2 w3 k3 tr,
      ¬ w.sem = 0 →
      fillWaitLoop factory fuel
        { w with sem := w.sem - 1, threadId := w.threadId + 1 } k =
        .raised msg w2 k2 →
      exec factory fuel (.finish c) w2 k2 = .ok w3 k3 tr →
      exec factory fuel (.run c cfg) w k =
        .raised msg { w3 with sem := w3.sem + 1 } k3 tr) := by
  refine ⟨?_, ?_, ?_⟩
  · intro w' k' tr h
    exact ((exec_run_post factory fuel w k c cfg).1 w' (by rw [h]; rfl)).2.1
  · intro msg w' k' tr h
    exact ⟨((exec_run_post factory fuel w k c cfg).1 w' (by rw [h]; rfl)).2.1,
      (exec_run_post factory fuel w k c cfg).2 msg w' k' tr h⟩
  · intro msg w2 k2 w3 k3 tr h0 hwait hnest
    rw [exec_run_raised_eq factory fuel c cfg w k msg w2 k2 h0 hwait, hnest]
    rfl

theorem C7_gate_released_witness :
    exec facTwoErrs 1 (.run 5 (some 3)) (mkWorker 1) 0 =
      .raised "Connection refused" ⟨1, [], [], [], 1, 1, []⟩ 1
        [.finishCalled 5] := by
  have hnest : exec facTwoErrs 1 (.finish 5) ⟨1, [], [], [], 1, 0, []⟩ 1 =
      .ok ⟨1, [], [], [], 1, 0, []⟩ 1 [.finishCalled 5] := by
    rw [exec_finish_eq_none facTwoErrs 1 5 ⟨1, [], [], [], 1, 0, []⟩ 1 rfl]
    rfl
  exact (C7_gate_released facTwoErrs 1 (mkWorker 1) 5 (some 3) 0).2.2
    "Connection refused" ⟨1, [], [], [], 1, 0, []⟩ 1 ⟨1, [], [], [], 1, 0, []⟩
    1 [.finishCalled 5] (by decide) (by decide) hnest

/-- C7, counterexample to "the exception is then re-raised to the caller of
`addCommand`": on a `limit = 2` pool with command 10 queued, dispatching
command 9 fails with "Connection refused" during provisioning, but the
completion handler wakes command 10, whose own dispatch fails with
"Network unreachable" — and that exception, not the original one, is what
propagates to the caller.  (The gate is still fully released: the final
`sem` is 2.) -/
theorem C7_counterexample :
    fillWaitLoop facTwoErrs 2
      { wTwoQueued with
        sem := wTwoQueued.sem - 1,
        threadId := wTwoQueued.threadId + 1 } 0 =
      .raised "Connection refused" ⟨2, [], [], [10], 1, 1, []⟩ 1 ∧
    exec facTwoErrs 2 (.run 9 (some 0)) wTwoQueued 0 =
      .raised "Network unreachable" ⟨2, [], [], [], 2, 2, []⟩ 2
        [.finishCalled 9, .finishCalled 10] ∧
    "Network unreachable" ≠ "Connection refused" :=
  ⟨by decide, exec_twoErrs_eval, by decide⟩

/-- C8: `isEmpty()` is true exactly when both the running-command list and
the wait queue are empty; it is false immediately after any `addCommand`
call that returns normally (the command is then recorded as running or
queued); and a finish callback can make it true only by removing the last
pending record with nothing left queued. -/
theorem C8_isEmpty (factory : Nat → FactoryResult) (fuel : Nat)
    (w : Worker) (c : Cmd) (cfg : Config) (k : Nat) :
    (isEmpty w = true ↔ (w.commands = [] ∧ w.waitingCommands = [])) ∧
    (∀ w' k' tr, addCommand factory fuel w c cfg k = .ok w' k' tr →
      isEmpty w' = false) ∧
    (∀ w' k' tr, exec factory fuel (.finish c) w k = .ok w' k' tr →
      isEmpty w' = true →
      (scanRemove c w.commands).1 = [] ∧ w.waitingCommands = []) := by
  refine ⟨?_, ?_, ?_⟩
  · simp [isEmpty, List.length_eq_zero]
  · intro w' k' tr h
    unfold addCommand at h
    split at h
    · simp only [Outcome.ok.injEq] at h
      obtain ⟨hw', _, _⟩ := h
      subst hw'
      simp [isEmpty]
    · obtain ⟨index, h1, _, _, _, _⟩ :=
        exec_run_ok_shape factory fuel w c (some cfg) k w' k' tr h
      simp [isEmpty, h1]
  · intro w' k' tr h hempty
    cases hlast : w.waitingCommands.getLast? with
    | none =>
      have hnil : w.waitingCommands = [] := by
        cases hl : w.waitingCommands with
        | nil => rfl
        | cons x xs =>
          rw [hl] at hlast
          simp [List.getLast?_eq_none_iff] at hlast
      rw [exec_finish_eq_none factory fuel c w k hnil] at h
      simp only [Outcome.ok.injEq] at h
      obtain ⟨hw', _, _⟩ := h
      subst hw'
      simp only [isEmpty, Bool.and_eq_true, beq_iff_eq] at hempty
      exact ⟨List.length_eq_zero.mp hempty.1, hnil⟩
    | some awakened =>
      rw [exec_finish_eq_some factory fuel c w k awakened hlast] at h
      cases hnest : exec factory fuel
          (.run awakened (scanRemove c w.commands).2.2)
          { w with
            commands := (scanRemove c w.commands).1,
            freeConnections := w.freeConnections ++ (scanRemove c w.commands).2.1,
            waitingCommands := w.waitingCommands.dropLast } k with
      | ok w3 k3 tr3 =>
        rw [hnest] at h
        simp only [prependFinish, Outcome.ok.injEq] at h
        obtain ⟨hw', _, _⟩ := h
        subst hw'
        obtain ⟨index, h1, _, _, _, _⟩ :=
          exec_run_ok_shape factory fuel _ awakened _ k w3 k3 tr3 hnest
        rw [show isEmpty w3 = false from ?_] at hempty
        · cases hempty
        · simp [isEmpty, h1]
      | raised msg3 w3 k3 tr3 =>
        rw [hnest] at h
        cases h
      | stuck =>
        rw [hnest] at h
        cases h

theorem C8_isEmpty_witness :
    (isEmpty (mkWorker 3) = true) ∧
    isEmpty { mkWorker 0 with waitingCommands := [5] } = false :=
  ⟨by decide,
   (C8_isEmpty facOne 1 (mkWorker 0) 5 7 0).2.1
     { mkWorker 0 with waitingCommands := [5] } 0 [.queued 5] rfl⟩

/-- C9: a successful factory call inside `fillConnection` appends the whole
returned batch as one entry of the connection list and appends exactly one
index to the free set — the new 1-based batch count — regardless of how
many connections the batch holds; and a dispatched command is bound via
`setConnection` to the entire batch stored at its slot index. -/
theorem C9_batch_slot (factory : Nat → FactoryResult) (fuel : Nat)
    (w : Worker) (k : Nat) (batch : Batch)
    (hfac : factory k = .ok batch) (hne : 0 < batch.length)
    (hlen : w.connections.length ≤ w.limit) :
    (fillConnection factory w k =
      .ok { w with
            connections := w.connections ++ [batch],
            freeConnections :=
              w.freeConnections ++ [w.connections.length + 1] }
        (k + 1) false ∧
      w.connections.length + 1 = (w.connections ++ [batch]).length) ∧
    (∀ c cfg w' k' tr, exec factory fuel (.run c cfg) w k = .ok w' k' tr →
      ∃ index,
        tr = [.setConn c (w'.connections.getD (index - 1) []) index,
              .started c (w.threadId + 1)]) := by
  constructor
  · constructor
    · unfold fillConnection
      rw [if_pos hlen, hfac]
      simp [hne]
    · simp
  · intro c cfg w' k' tr h
    obtain ⟨index, _, h2, _, _, _⟩ :=
      exec_run_ok_shape factory fuel w c cfg k w' k' tr h
    exact ⟨index, h2⟩

theorem C9_batch_slot_witness :
    (fillConnection (fun _ => FactoryResult.ok [100, 101, 102])
        (mkWorker 1) 0 =
      .ok { mkWorker 1 with
            connections := [[100, 101, 102]],
            freeConnections := [1] } 1 false) ∧
    (∃ index,
      ([.setConn 7 [100] 1, .started 7 1] : List PoolEvent) =
        [.setConn 7
          ((⟨1, [[100]], [PendRec.mk 7 (some 42) 1 1], [], 1, 1, []⟩ :
            Worker).connections.getD (index - 1) []) index,
         .started 7 ((mkWorker 1).threadId + 1)]) :=
  ⟨by
    have hw := (C9_batch_slot (fun _ => FactoryResult.ok [100, 101, 102]) 1
      (mkWorker 1) 0 [100, 101, 102] rfl (by decide) (by decide)).1.1
    simpa using hw,
   (C9_batch_slot facOne 1 (mkWorker 1) 0 [100] rfl (by decide)
      (by decide)).2 7 (some 42) _ _ _ exec_fresh_eval⟩

/-- C10: a finish callback for a command with no matching pending record
leaves the running-command list and the free connection set unchanged — no
slot is freed — yet it still pops the most recently queued command (if any)
and dispatches it through `__run` with a `None` config; with nothing queued
it returns with the pool state unchanged. -/
theorem C10_unmatched_finish (factory : Nat → FactoryResult) (fuel : Nat)
    (w : Worker) (c : Cmd) (k : Nat)
    (hno : ∀ r ∈ w.commands, r.command ≠ c) :
    (w.waitingCommands = [] →
      exec factory fuel (.finish c) w k = .ok w k [.finishCalled c]) ∧
    (∀ ws awakened, w.waitingCommands = ws ++ [awakened] →
      exec factory fuel (.finish c) w k =
        prependFinish c (exec factory fuel (.run awakened none)
          { w with waitingCommands := ws } k)) := by
  have hscan := scanRemove_nomatch c w.commands hno
  constructor
  · intro hnil
    rw [exec_finish_eq_none factory fuel c w k hnil, hscan]
    simp
  · intro ws awakened hwt
    have hlast : w.waitingCommands.getLast? = some awakened := by
      rw [hwt]
      exact List.getLast?_concat ws
    rw [exec_finish_eq_some factory fuel c w k awakened hlast, hscan, hwt]
    simp [List.dropLast_concat]

theorem C10_unmatched_finish_witness :
    exec facOne 2 (.finish 99)
        ⟨2, [[100]], [PendRec.mk 3 (some 7) 1 1], [8], 1, 2, [2]⟩ 0 =
      prependFinish 99 (exec facOne 2 (.run 8 none)
        ⟨2, [[100]], [PendRec.mk 3 (some 7) 1 1], [], 1, 2, [2]⟩ 0) := by
  have hw := (C10_unmatched_finish facOne 2
    ⟨2, [[100]], [PendRec.mk 3 (some 7) 1 1], [8], 1, 2, [2]⟩ 99 0
    (by intro r hr; simp at hr; subst hr; decide)).2 [] 8 rfl
  exact hw

end FTPSync
